import Mathlib

set_option maxRecDepth 4000

namespace LumosMark

/-! Shallow embedding of the LMM core: `src/lmm.rs/src/parser.rs` (with the
`Position` shape the parser maintains) and the Markdown half of
`src/lib/lmm.rs/src/backend.rs`.

Strings are modelled as lists of Unicode scalar values.  Cursor indices count
scalar values; every byte-offset computation of the Rust source that is
observable (the UTF-8/UTF-16 column counters, span offsets inside a line, the
byte-wise parameter-token scanning) is mirrored explicitly through `utf8Len` /
`utf8Bytes`.  Rust `&str` slicing panics on a non-boundary byte index; the
`PRes` result type models that outcome (`panicked`), and loop fuel models a
diverging scan (`fuelOut`). -/

/-- Number of UTF-8 code units of a scalar value (Rust `char::len_utf8`). -/
def utf8Len (c : Char) : Nat :=
  if c.toNat < 0x80 then 1
  else if c.toNat < 0x800 then 2
  else if c.toNat < 0x10000 then 3
  else 4

/-- Number of UTF-16 code units of a scalar value (Rust `char::len_utf16`). -/
def utf16Len (c : Char) : Nat :=
  if c.toNat < 0x10000 then 1 else 2

/-- UTF-8 byte length of a string (Rust `str::len`). -/
def utf8LenList (s : List Char) : Nat :=
  (s.map utf8Len).sum

/-- UTF-16 code-unit length of a string. -/
def utf16LenList (s : List Char) : Nat :=
  (s.map utf16Len).sum

/-- The UTF-8 bytes of a scalar value (Rust `char::encode_utf8`). -/
def utf8Bytes (c : Char) : List Nat :=
  let v := c.toNat
  if v < 0x80 then [v]
  else if v < 0x800 then [0xC0 + v / 0x40, 0x80 + v % 0x40]
  else if v < 0x10000 then
    [0xE0 + v / 0x1000, 0x80 + (v / 0x40) % 0x40, 0x80 + v % 0x40]
  else
    [0xF0 + v / 0x40000, 0x80 + (v / 0x1000) % 0x40, 0x80 + (v / 0x40) % 0x40, 0x80 + v % 0x40]

/-- Rust `u8 as char` applied to each UTF-8 byte of `c` (used by the
byte-wise parameter scanner `parse_params`, which pushes `bytes[cursor] as char`). -/
def utf8Latin1 (c : Char) : List Char :=
  (utf8Bytes c).map Char.ofNat

/-- Rust `char::is_whitespace` (the Unicode `White_Space` property). -/
def rustIsWhitespace (c : Char) : Bool :=
  let v := c.toNat
  v = 0x09 || v = 0x0A || v = 0x0B || v = 0x0C || v = 0x0D || v = 0x20 ||
  v = 0x85 || v = 0xA0 || v = 0x1680 || (0x2000 ≤ v && v ≤ 0x200A) ||
  v = 0x2028 || v = 0x2029 || v = 0x202F || v = 0x205F || v = 0x3000

/-- Rust `char::is_ascii_whitespace` (space, tab, newline, form feed, carriage return). -/
def isAsciiWhitespace (c : Char) : Bool :=
  let v := c.toNat
  v = 0x20 || v = 0x09 || v = 0x0A || v = 0x0C || v = 0x0D

/-- Rust `str::trim_start`. -/
def trimStart (s : List Char) : List Char :=
  s.dropWhile rustIsWhitespace

/-- Rust `str::trim_end`. -/
def trimEnd (s : List Char) : List Char :=
  (s.reverse.dropWhile rustIsWhitespace).reverse

/-- Rust `str::trim`. -/
def trim (s : List Char) : List Char :=
  trimEnd (trimStart s)

/-- Rust `str::split_once`: split at the first occurrence of `sep`. -/
def splitOnce : List Char → Char → Option (List Char × List Char)
  | [], _ => none
  | c :: rest, sep =>
    if c = sep then some ([], rest)
    else
      match splitOnce rest sep with
      | some (a, b) => some (c :: a, b)
      | none => none

/-- Helper for `findSub`: first index `≥ i` at which `pat` occurs in `hay`
(indices counted from the original start, `i` being the index of `hay`). -/
def findSubAux (pat : List Char) : List Char → Nat → Option Nat
  | [], i => if pat.isPrefixOf [] then some i else none
  | c :: rest, i =>
    if pat.isPrefixOf (c :: rest) then some i else findSubAux pat rest (i + 1)

/-- Rust `str::find` for a literal pattern: index of the first occurrence. -/
def findSub (hay pat : List Char) : Option Nat :=
  findSubAux pat hay 0

/-! ## Data model (`ast.rs` as used by `parser.rs`) -/

/-- A zero-based line index with the column in three units, as the parser
maintains it: UTF-8 byte offset, UTF-16 code-unit offset and scalar-value
offset within the line. -/
structure Position where
  line : Nat
  col8 : Nat
  col16 : Nat
  col32 : Nat
deriving Repr, DecidableEq

/-- A half-open span in the source text. -/
structure Span where
  start : Position
  «end» : Position
deriving Repr, DecidableEq

/-- Severity for diagnostics emitted during parsing. -/
inductive Severity where
  | Error
  | Warning
deriving Repr, DecidableEq

/-- A diagnostic message tied to a source span. -/
structure Diagnostic where
  span : Span
  severity : Severity
  message : String
deriving Repr, DecidableEq

/-- Key/value attribute with a source span. -/
structure Attribute where
  key : String
  value : String
  span : Span
deriving Repr, DecidableEq

/-- A single text line with indentation, span, and comment marker. -/
structure TextLine where
  indent : Nat
  value : String
  span : Span
  is_comment : Bool
deriving Repr, DecidableEq

/-- A text node containing parsed lines. -/
structure Text where
  lines : List TextLine
deriving Repr, DecidableEq

/-- Top-level node kinds; a block carries name, args, params, leading
attributes, children and the header span (the fields of Rust `Block`). -/
inductive Node where
  | block : String → List String → List Attribute → List Attribute → List Node → Span → Node
  | text : Text → Node

/-- The `Block` record of `ast.rs`, for the renderer interface. -/
structure Block where
  name : String
  args : List String
  params : List Attribute
  attrs : List Attribute
  nodes : List Node
  span : Span

/-- Parsed document root containing attributes and nodes. -/
structure Document where
  attrs : List Attribute
  nodes : List Node

/-- Parser options (`space_width` default 1, `tab_width` default 2). -/
structure ParseOptions where
  space_width : Nat
  tab_width : Nat
deriving Repr, DecidableEq

/-- `ParseOptions::default()`. -/
def defaultOptions : ParseOptions := ⟨1, 2⟩

/-- The result of a parse: document plus diagnostics. -/
structure ParseResult where
  document : Document
  diagnostics : List Diagnostic

/-- Outcome of running the embedded parser: a value, a Rust panic
(non-boundary string slicing), or exhausted loop fuel. -/
inductive PRes (α : Type) where
  | ok : α → PRes α
  | panicked : PRes α
  | fuelOut : PRes α

def PRes.bind {α β : Type} : PRes α → (α → PRes β) → PRes β
  | .ok a, f => f a
  | .panicked, _ => .panicked
  | .fuelOut, _ => .fuelOut

instance : Monad PRes where
  pure := PRes.ok
  bind := PRes.bind

/-- The mutable scan state of Rust `Parser` (the borrowed `input` is passed
separately): current index, index of the current line start, derived
position, and the diagnostics accumulated so far. -/
structure ScanState where
  idx : Nat
  line_start_idx : Nat
  pos : Position
  diagnostics : List Diagnostic
deriving Repr, DecidableEq

/-- `push_diag`. -/
def ScanState.withDiag (st : ScanState) (d : Diagnostic) : ScanState :=
  ⟨st.idx, st.line_start_idx, st.pos, st.diagnostics ++ [d]⟩

/-- A buffered text line before unescaping (`LineBuf`). -/
structure LineBuf where
  indent : Nat
  value : List Char
  span : Span
  is_comment : Bool
deriving Repr, DecidableEq

/-! ## Cursor primitives -/

/-- `advance_position`: one-character position step (also the per-character
logic that `advance_char` and `advance_to_idx` inline). -/
def advancePosition (pos : Position) (c : Char) : Position :=
  if c = '\n' then ⟨pos.line + 1, 0, 0, 0⟩
  else ⟨pos.line, pos.col8 + utf8Len c, pos.col16 + utf16Len c, pos.col32 + 1⟩

/-- State update for consuming one character (shared by `advance_char` and
`advance_to_idx`, whose bodies are identical per character). -/
def advanceCharStep (c : Char) (st : ScanState) : ScanState :=
  let idx1 := st.idx + 1
  let ls := if c = '\n' then idx1 else st.line_start_idx
  ⟨idx1, ls, advancePosition st.pos c, st.diagnostics⟩

def atEnd (input : List Char) (st : ScanState) : Bool :=
  input.length ≤ st.idx

def peekChar (input : List Char) (st : ScanState) : Option Char :=
  (input.drop st.idx).head?

/-- `advance_char`. -/
def advanceChar (input : List Char) (st : ScanState) : ScanState :=
  match peekChar input st with
  | none => st
  | some c => advanceCharStep c st

/-- Consume a list of characters in order (the loop body of `advance_to_idx`). -/
def advanceChars : List Char → ScanState → ScanState
  | [], st => st
  | c :: rest, st => advanceChars rest (advanceCharStep c st)

/-- `advance_to_idx`: advance the cursor to `target` (a no-op when
`target ≤ idx`), consuming the characters in between. -/
def advanceToIdx (input : List Char) (st : ScanState) (target : Nat) : ScanState :=
  if target ≤ st.idx then st
  else advanceChars ((input.take target).drop st.idx) st

/-- `line_end_idx`: index of the `'\n'` ending the current line, or the input
length. -/
def lineEndIdx (input : List Char) (st : ScanState) : Nat :=
  if input.length ≤ st.line_start_idx then input.length
  else
    match (input.drop st.line_start_idx).findIdx? (fun c => c = '\n') with
    | some o => st.line_start_idx + o
    | none => input.length

/-- `current_line_slice`. -/
def currentLineSlice (input : List Char) (st : ScanState) : Option (List Char) :=
  if input.length < st.line_start_idx then none
  else some ((input.take (lineEndIdx input st)).drop st.line_start_idx)

/-- `current_line_offset` (saturating). -/
def currentLineOffset (st : ScanState) : Nat :=
  st.idx - st.line_start_idx

def isLineStart (st : ScanState) : Bool :=
  st.idx = st.line_start_idx

/-- `advance_line`: move to the end of the current line, then past a `'\n'`. -/
def advanceLine (input : List Char) (st : ScanState) : ScanState :=
  let le := lineEndIdx input st
  let st1 := if st.idx < le then advanceToIdx input st le else st
  if peekChar input st1 = some '\n' then advanceChar input st1 else st1

/-- `advance_line_if_eol`. -/
def advanceLineIfEol (input : List Char) (st : ScanState) : ScanState :=
  let le := lineEndIdx input st
  if le ≤ st.idx then
    if peekChar input st = some '\n' then advanceChar input st else st
  else st

/-- `find_close_in_line`: first occurrence of `close` in the remainder of the
current physical line, as an absolute index. -/
def findCloseInLine (input : List Char) (st : ScanState) (close : List Char) : Option Nat :=
  let le := lineEndIdx input st
  if le < st.idx then none
  else
    match findSub ((input.take le).drop st.idx) close with
    | some k => some (st.idx + k)
    | none => none

/-! ## Span helpers -/

/-- `span_at_line_start`. -/
def spanAtLineStart (lineIndex : Nat) : Span :=
  ⟨⟨lineIndex, 0, 0, 0⟩, ⟨lineIndex, 0, 0, 0⟩⟩

/-- Walk of `position_for_line_offset`: locate a UTF-8 byte offset inside a
line, accumulating the three column units.  Rust slices `&line[..byte_offset]`,
which panics when the offset exceeds the line length or falls inside a
multi-byte character; those cases are `panicked`. -/
def positionForLineOffsetGo (lineIndex : Nat) :
    List Char → Nat → Nat → Nat → Nat → PRes Position
  | _, 0, col8, col16, col32 => .ok ⟨lineIndex, col8, col16, col32⟩
  | [], _ + 1, _, _, _ => .panicked
  | c :: rest, t + 1, col8, col16, col32 =>
    if utf8Len c ≤ t + 1 then
      positionForLineOffsetGo lineIndex rest (t + 1 - utf8Len c)
        (col8 + utf8Len c) (col16 + utf16Len c) (col32 + 1)
    else .panicked

/-- `position_for_line_offset` (the offset is a UTF-8 byte offset). -/
def positionForLineOffset (lineIndex : Nat) (line : List Char) (byteOffset : Nat) :
    PRes Position :=
  positionForLineOffsetGo lineIndex line byteOffset 0 0 0

/-- `span_for_line_offsets`. -/
def spanForLineOffsets (lineIndex : Nat) (line : List Char) (startB endB : Nat) :
    PRes Span := do
  let s ← positionForLineOffset lineIndex line startB
  let e ← positionForLineOffset lineIndex line endB
  pure ⟨s, e⟩

/-- `line_span_from_line`. -/
def lineSpanFromLine (lineIndex : Nat) (line : List Char) : PRes Span := do
  let e ← positionForLineOffset lineIndex line (utf8LenList line)
  pure ⟨⟨lineIndex, 0, 0, 0⟩, e⟩

/-! ## Line classification and text segments -/

/-- `is_comment_line`: starts with `'!'` after leading whitespace, but not with
`"!!"`. -/
def isCommentLine (line : List Char) : Bool :=
  let trimmed := trimStart line
  if List.isPrefixOf ['!', '!'] trimmed then false
  else List.isPrefixOf ['!'] trimmed

/-- `is_dollar_line`: the trimmed line is exactly `"$"`. -/
def isDollarLine (line : List Char) : Bool :=
  trim line = ['$']

/-- `block_close_delim`: `"}"` followed by `plus_count` `'+'` characters. -/
def blockCloseDelim (plusCount : Nat) : List Char :=
  '\x7d' :: List.replicate plusCount '+'

/-- The leading-whitespace loop of `parse_text_segment` / `parse_comment_line`:
weighted indent and the number of consumed characters (each one byte). -/
def indentSkip (opts : ParseOptions) : List Char → Nat × Nat
  | [] => (0, 0)
  | c :: rest =>
    if c = ' ' then
      let (i, s) := indentSkip opts rest
      (i + opts.space_width, s + 1)
    else if c = '\t' then
      let (i, s) := indentSkip opts rest
      (i + opts.tab_width, s + 1)
    else (0, 0)

/-- `parse_text_segment`.  `start` and `end_` are scalar-value offsets into
`line`; the span is computed from the byte offsets exactly as the source does
(`value_start + value.len()` bytes), including the panic when the `"!!"`
collapse makes that offset land inside a final multi-byte character. -/
def parseTextSegment (opts : ParseOptions) (line : List Char) (lineIndex start end_ : Nat) :
    PRes (Option LineBuf) :=
  if end_ ≤ start then .ok none
  else
    let segment := (line.take end_).drop start
    let (indent, skip) := if start = 0 then indentSkip opts segment else (0, 0)
    let value0 := segment.drop skip
    let value :=
      if start = 0 && List.isPrefixOf ['!', '!'] value0 then '!' :: value0.drop 2
      else value0
    if value = [] then .ok none
    else do
      let valueStartB := utf8LenList (line.take start) + skip
      let span ← spanForLineOffsets lineIndex line valueStartB (valueStartB + utf8LenList value)
      pure (some ⟨indent, value, span, false⟩)

/-- `parse_comment_line`. -/
def parseCommentLine (opts : ParseOptions) (line : List Char) (lineIndex : Nat) :
    PRes (Option LineBuf) :=
  if ¬ isCommentLine line then .ok none
  else
    let (indent, skip) := indentSkip opts line
    let after := line.drop skip
    let rest := if List.isPrefixOf ['!'] after then after.drop 1 else []
    let trimmed := trimStart rest
    let leadingB := utf8LenList rest - utf8LenList trimmed
    let valueStartB := skip + 1 + leadingB
    do
      let span ← spanForLineOffsets lineIndex line valueStartB (valueStartB + utf8LenList trimmed)
      pure (some ⟨indent, trimmed, span, true⟩)

/-- `parse_text_line` (used for the lines of a `$` verbatim section). -/
def parseTextLine (opts : ParseOptions) (line : List Char) (lineIndex : Nat) :
    PRes (Option LineBuf) :=
  if isCommentLine line then parseCommentLine opts line lineIndex
  else parseTextSegment opts line lineIndex 0 line.length

/-- `unescape_text`: a single left-to-right pass collapsing `"@@"`, `"##"`,
`"\x7b\x7b"` to their first character, consuming each pair atomically. -/
def unescapeText : List Char → List Char
  | [] => []
  | [c] => [c]
  | a :: b :: rest =>
    if (a = '@' && b = '@') || (a = '#' && b = '#') || (a = '\x7b' && b = '\x7b') then
      a :: unescapeText rest
    else a :: unescapeText (b :: rest)

/-- Turn a buffered line into a `TextLine`, unescaping the value (the loop
body shared by `flush_text` and `finalize_text`). -/
def toTextLine (lb : LineBuf) : TextLine :=
  ⟨lb.indent, String.mk (unescapeText lb.value), lb.span, lb.is_comment⟩

/-- `flush_text`: append the buffered lines as one `Text` node (no-op when the
buffer is empty); the caller resets the buffer. -/
def flushText (nodes : List Node) (textBuf : List LineBuf) : List Node :=
  if textBuf = [] then nodes
  else nodes ++ [Node.text ⟨textBuf.map toTextLine⟩]

/-- `finalize_text` (for verbatim sections). -/
def finalizeText (lines : List LineBuf) : Text :=
  ⟨lines.map toTextLine⟩

/-! ## Block headers -/

/-- `find_block_header_start`: the column of a leading `'@'` after optional
whitespace (returned twice, as `(at_col, header_start)`). -/
def findBlockHeaderStart (line : List Char) : Option (Nat × Nat) :=
  let trimmed := trimStart line
  if List.isPrefixOf ['@'] trimmed then
    let atCol := line.length - trimmed.length
    some (atCol, atCol)
  else none

/-- Identifier characters of a block name (`is_ascii_alphanumeric`, `'_'`, `'-'`). -/
def isIdentChar (c : Char) : Bool :=
  c.isAlphanum || c = '_' || c = '-'

/-- The bare-argument loop of `parse_header_parts`: whitespace-separated
tokens, stopping at the first `'['` or `'+'` (fuelled; any fuel of at least
`s.length + 1` is exact). -/
def parseArgs : Nat → List Char → List (List Char) × List Char
  | 0, s => ([], s)
  | _ + 1, [] => ([], [])
  | fuel + 1, c :: rest =>
    if c = '[' || c = '+' then ([], c :: rest)
    else if isAsciiWhitespace c then parseArgs fuel rest
    else
      let sep := fun ch => isAsciiWhitespace ch || ch = '[' || ch = '+'
      let tok := (c :: rest).takeWhile (fun ch => !sep ch)
      let after := (c :: rest).dropWhile (fun ch => !sep ch)
      let (more, s2) := parseArgs fuel after
      (tok :: more, s2)

/-- `parse_param_token`: split a parameter token at the first `'='`, trimming
key and value; a token without `'='` yields an empty value. -/
def parseParamToken (token : List Char) : String × String :=
  let token := trim token
  match splitOnce token '=' with
  | none => (String.mk token, "")
  | some (key, value) => (String.mk (trim key), String.mk (trim value))

/-- The byte-wise loop of `parse_params`: Rust iterates bytes and pushes
`bytes[cursor] as char`, so each consumed character contributes its UTF-8
bytes read as Latin-1 characters to the token.  At end of input the pending
token is dropped (the source returns without pushing it). -/
def parseParamsGo : List Char → List Char → List (String × String) →
    List (String × String) × List Char
  | [], _, acc => (acc, [])
  | c :: rest, token, acc =>
    if c = ']' then
      (if trim token ≠ [] then acc ++ [parseParamToken token] else acc, rest)
    else if c = ',' then
      parseParamsGo rest []
        (if trim token ≠ [] then acc ++ [parseParamToken token] else acc)
    else parseParamsGo rest (token ++ utf8Latin1 c) acc

/-- `parse_params`: bracketed `[k=v, ...]` list; returns the parameters and
the remainder after the closing `']'` (or at end of input). -/
def parseParams (s : List Char) : List (String × String) × List Char :=
  match s with
  | '[' :: rest => parseParamsGo rest [] []
  | _ => ([], s)

/-- `parse_header_parts`: `@name`, bare args, optional `[params]`, trailing
`'+'` run; `none` when the header does not start with `'@'` or no identifier
character follows the `'@'`.  `missing_space` records that the `'\x7b'`
followed the name immediately. -/
def parseHeaderParts (header : List Char) :
    Option (String × List String × List (String × String) × Nat × Bool) :=
  match header with
  | [] => none
  | c0 :: rest =>
    if c0 ≠ '@' then none
    else
      let nameChars := rest.takeWhile isIdentChar
      if nameChars = [] then none
      else
        let afterName := rest.dropWhile isIdentChar
        let missingSpace := afterName = []
        let s1 := afterName.dropWhile isAsciiWhitespace
        let (args, s2) := parseArgs (s1.length + 1) s1
        let (params, s3) :=
          match s2 with
          | '[' :: _ =>
            let (ps, rest2) := parseParams s2
            (ps, rest2.dropWhile isAsciiWhitespace)
          | _ => ([], s2)
        let plusCount := (s3.takeWhile (fun ch => ch = '+')).length
        some (String.mk nameChars, args.map String.mk, params, plusCount, missingSpace)

/-- The scanning loop of `scan_header`: collect characters from `startIdx`
until the next `'\x7b'`, folding embedded newlines to single spaces; returns
the header text, its span, and the index one past the `'\x7b'`. -/
def scanHeaderGo (startPos : Position) :
    List Char → Nat → Position → List Char → Option (List Char × Span × Nat)
  | [], _, _, _ => none
  | c :: rest, idx, pos, acc =>
    if c = '\x7b' then some (acc.reverse, ⟨startPos, advancePosition pos c⟩, idx + 1)
    else if c = '\n' then scanHeaderGo startPos rest (idx + 1) ⟨pos.line + 1, 0, 0, 0⟩ (' ' :: acc)
    else scanHeaderGo startPos rest (idx + 1) (advancePosition pos c) (c :: acc)

/-- `scan_header`. -/
def scanHeader (input : List Char) (startIdx : Nat) (startPos : Position) :
    Option (List Char × Span × Nat) :=
  scanHeaderGo startPos (input.drop startIdx) startIdx startPos []

/-- The data of a parsed block header (`BlockHeader`). -/
structure BlockHeaderInfo where
  name : String
  args : List String
  params : List Attribute
  plus_count : Nat
  span : Span
deriving Repr

/-- The warning text emitted when the name touches the opening delimiter. -/
def missingSpaceWarning : String :=
  "LMM 格式规范：标记名称与左大括号之间必须有一个空格。建议改为 \x27@name \x7b\x27"

/-- `try_parse_block_header`. -/
def tryParseBlockHeader (input : List Char) (st : ScanState) :
    PRes (Option BlockHeaderInfo × ScanState) :=
  match currentLineSlice input st with
  | none => .ok (none, st)
  | some line =>
    match findBlockHeaderStart line with
    | none => .ok (none, st)
    | some (atCol, headerStart) => do
      let startPos ← positionForLineOffset st.pos.line line (utf8LenList (line.take atCol))
      let startIdx := st.line_start_idx + headerStart
      match scanHeader input startIdx startPos with
      | none => do
        let span ← lineSpanFromLine st.pos.line line
        let st := st.withDiag ⟨span, Severity.Error, "block header missing opening delimiter"⟩
        pure (none, advanceLine input st)
      | some (headerRaw, headerSpan, endIdx) =>
        let st := advanceToIdx input st endIdx
        let st := advanceLineIfEol input st
        match parseHeaderParts headerRaw with
        | none =>
          .ok (none, st.withDiag ⟨headerSpan, Severity.Error, "missing block name"⟩)
        | some (name, args, params, plusCount, missingSpace) =>
          let st := if missingSpace then
              st.withDiag ⟨headerSpan, Severity.Warning, missingSpaceWarning⟩
            else st
          .ok (some ⟨name, args,
            params.map (fun kv => ⟨kv.1, kv.2, headerSpan⟩),
            plusCount, ⟨startPos, headerSpan.«end»⟩⟩, st)

/-! ## The node loop and document parse -/

/-- `collect_until_dollar`: the physical lines up to (and consuming) the next
bare-`$` line, with an error diagnostic when end of input is reached first. -/
def collectUntilDollar (input : List Char) :
    Nat → ScanState → PRes (List (Nat × List Char) × ScanState)
  | 0, _ => .fuelOut
  | fuel + 1, st =>
    if atEnd input st then
      .ok ([], st.withDiag
        ⟨spanAtLineStart (st.pos.line - 1), Severity.Error, "unterminated $ block"⟩)
    else
      let line := (currentLineSlice input st).getD []
      if isDollarLine line then .ok ([], advanceLine input st)
      else do
        let (rest, st2) ← collectUntilDollar input fuel (advanceLine input st)
        pure ((st.pos.line, line) :: rest, st2)

/-- `parse_attribute_line`: `#key:value` after leading whitespace, with a
single `'#'`; error diagnostics for a missing `':'` or an empty trimmed key. -/
def parseAttributeLine (line : List Char) (st : ScanState) :
    PRes (Option Attribute × ScanState) :=
  let trimmed := trimStart line
  if (!(List.isPrefixOf ['#'] trimmed) || List.isPrefixOf ['#', '#'] trimmed) = true then
    .ok (none, st)
  else
    let withoutHash := trimmed.drop 1
    match splitOnce withoutHash ':' with
    | none => do
      let span ← lineSpanFromLine st.pos.line line
      pure (none, st.withDiag ⟨span, Severity.Error, "attribute missing \x27:\x27"⟩)
    | some (key, value) =>
      let key := trim key
      if key = [] then do
        let span ← lineSpanFromLine st.pos.line line
        pure (none, st.withDiag ⟨span, Severity.Error, "attribute key is empty"⟩)
      else do
        let span ← lineSpanFromLine st.pos.line line
        pure (some ⟨String.mk key, String.mk (trim value), span⟩, st)

/-- `parse_attributes_at_start`: the leading-attribute run at the document
level and at the start of every block body. -/
def parseAttributesAtStart (input : List Char) :
    Nat → ScanState → PRes (List Attribute × ScanState)
  | 0, _ => .fuelOut
  | fuel + 1, st =>
    if ¬ isLineStart st then .ok ([], st)
    else
      match currentLineSlice input st with
      | none => .ok ([], st)
      | some line =>
        if isCommentLine line then .ok ([], st)
        else if trim line = [] then .ok ([], st)
        else do
          let (attr?, st2) ← parseAttributeLine line st
          match attr? with
          | some attr => do
            let (rest, st3) ← parseAttributesAtStart input fuel (advanceLine input st2)
            pure (attr :: rest, st3)
          | none => .ok ([], st2)

/-- `consume_trailing_comments`. -/
def consumeTrailingComments (input : List Char) : Nat → ScanState → PRes ScanState
  | 0, _ => .fuelOut
  | fuel + 1, st =>
    if atEnd input st then .ok st
    else
      match currentLineSlice input st with
      | none => .ok st
      | some line =>
        if isCommentLine line || trim line = [] then
          consumeTrailingComments input fuel (advanceLine input st)
        else .ok st

/-- Append an optional buffered line. -/
def pushOpt (textBuf : List LineBuf) : Option LineBuf → List LineBuf
  | some lb => textBuf ++ [lb]
  | none => textBuf

/-- Parse the collected verbatim lines with `parse_text_line`, keeping the
produced buffers in order. -/
def rawLinesToBufs (opts : ParseOptions) : List (Nat × List Char) → PRes (List LineBuf)
  | [] => .ok []
  | (lineIndex, raw) :: rest => do
    let lb? ← parseTextLine opts raw lineIndex
    let bufs ← rawLinesToBufs opts rest
    pure (match lb? with | some lb => lb :: bufs | none => bufs)

/-- The `while` loop of `parse_nodes_until`, with the node list and pending
text buffer as accumulators.  The returned `Bool` records whether the loop
ended by matching the closing delimiter (`closed` set by a `break`); the
caller of a block body turns a `false` into the "missing closing delimiter"
error exactly as `parse_nodes_until` does after its loop.  Fuel only
decreases per loop step; any fuel above the remaining input length is exact. -/
def parseNodesLoop (input : List Char) (opts : ParseOptions) :
    Nat → ScanState → Option (List Char) → List Node → List LineBuf →
    PRes (List Node × ScanState × Bool)
  | 0, _, _, _, _ => .fuelOut
  | fuel + 1, st, closing, nodes, textBuf =>
    if atEnd input st then .ok (flushText nodes textBuf, st, false)
    else
      -- the trailing text branch (cursor mid-line, or a line-start branch fell through)
      let stepRest : ScanState → List Node → List LineBuf → PRes (List Node × ScanState × Bool) :=
        fun st nodes textBuf =>
          match currentLineSlice input st with
          | some line => do
            let endOff := lineEndIdx input st - st.line_start_idx
            let lb? ← parseTextSegment opts line st.pos.line (currentLineOffset st) endOff
            parseNodesLoop input opts fuel (advanceLine input st) closing nodes (pushOpt textBuf lb?)
          | none => parseNodesLoop input opts fuel st closing nodes textBuf
      let lineStartStep : ScanState → PRes (List Node × ScanState × Bool) :=
        fun st =>
          match currentLineSlice input st with
          | none => stepRest st nodes textBuf
          | some line =>
            if isCommentLine line then do
              let lb? ← parseCommentLine opts line st.pos.line
              parseNodesLoop input opts fuel (advanceLine input st) closing nodes
                (pushOpt textBuf lb?)
            else if trim line = [] then
              parseNodesLoop input opts fuel (advanceLine input st) closing nodes textBuf
            else if isDollarLine line then do
              let nodes := flushText nodes textBuf
              let (rawLines, st2) ← collectUntilDollar input fuel (advanceLine input st)
              let lines ← rawLinesToBufs opts rawLines
              let nodes := if lines = [] then nodes
                else nodes ++ [Node.text (finalizeText lines)]
              parseNodesLoop input opts fuel st2 closing nodes []
            else do
              let (hdr?, st2) ← tryParseBlockHeader input st
              match hdr? with
              | some hdr => do
                let nodes := flushText nodes textBuf
                let (battrs, st3) ← parseAttributesAtStart input fuel st2
                let closeDelim := blockCloseDelim hdr.plus_count
                let (children, st4, broke) ← parseNodesLoop input opts fuel st3
                  (some closeDelim) [] []
                let st5 := if broke then st4
                  else st4.withDiag
                    ⟨spanAtLineStart (st4.pos.line - 1), Severity.Error,
                      "missing closing delimiter"⟩
                let nodes := nodes ++
                  [Node.block hdr.name hdr.args hdr.params battrs children hdr.span]
                parseNodesLoop input opts fuel st5 closing nodes []
              | none => stepRest st2 nodes textBuf
      match closing with
      | some close =>
        match findCloseInLine input st close with
        | some closeIdx =>
          if closeIdx = st.idx then
            .ok (flushText nodes textBuf, advanceToIdx input st (closeIdx + close.length), true)
          else do
            let line := (currentLineSlice input st).getD []
            let endOff := closeIdx - st.line_start_idx
            let lb? ← parseTextSegment opts line st.pos.line (currentLineOffset st) endOff
            let nodes := flushText nodes (pushOpt textBuf lb?)
            .ok (nodes, advanceToIdx input st (closeIdx + close.length), true)
        | none =>
          if isLineStart st then lineStartStep st else stepRest st nodes textBuf
      | none =>
        if isLineStart st then lineStartStep st else stepRest st nodes textBuf

/-- `parse_document_with_options` (via `Parser::parse_document`): leading
attributes, the node loop with no closing delimiter, trailing blank/comment
lines, and the trailing-content check. -/
def parseDocumentWithOptions (s : String) (opts : ParseOptions) : PRes ParseResult :=
  let input := s.data
  let fuel := input.length + 1
  let st0 : ScanState := ⟨0, 0, ⟨0, 0, 0, 0⟩, []⟩
  do
    let (attrs, st1) ← parseAttributesAtStart input fuel st0
    let (nodes, st2, _) ← parseNodesLoop input opts fuel st1 none [] []
    let st3 ← consumeTrailingComments input fuel st2
    let st4 :=
      if ¬ atEnd input st3 then
        st3.withDiag ⟨spanAtLineStart st3.pos.line, Severity.Error, "unexpected trailing content"⟩
      else st3
    pure ⟨⟨attrs, nodes⟩, st4.diagnostics⟩

/-- `parse_document`. -/
def parseDocument (s : String) : PRes ParseResult :=
  parseDocumentWithOptions s defaultOptions

/-! ## Markdown renderer (`backend.rs`) -/

/-- `push_indent`: the weighted indent re-rendered as that many spaces. -/
def pushIndentStr (indent : Nat) : String :=
  String.mk (List.replicate indent ' ')

/-- `render_text_markdown`: each non-comment line with its indent, then one
blank line after the node. -/
def renderTextMarkdown (t : Text) : String :=
  (t.lines.foldl
    (fun acc line =>
      if line.is_comment then acc
      else acc ++ pushIndentStr line.indent ++ line.value ++ "\n") "") ++ "\n"

/-- `render_text_only_markdown`: the non-comment line values of direct `Text`
children, one per line. -/
def renderTextOnlyMarkdown (nodes : List Node) : String :=
  nodes.foldl
    (fun acc n =>
      match n with
      | Node.text t =>
        t.lines.foldl
          (fun acc line => if line.is_comment then acc else acc ++ line.value ++ "\n") acc
      | _ => acc) ""

/-- Whether `render_list_markdown` emits at least one item (its `had_text`). -/
def listHadText (nodes : List Node) : Bool :=
  nodes.any fun n =>
    match n with
    | Node.text t => t.lines.any (fun line => !line.is_comment)
    | _ => false

/-- `ListStyle`. -/
inductive ListStyle where
  | Bullet
  | Line
deriving Repr, DecidableEq

/-- `has_param`: key among `params` keys or bare `args`. -/
def hasParam (b : Block) (key : String) : Bool :=
  b.params.any (fun p => p.key == key) || b.args.any (fun a => a == key)

/-- `list_style`. -/
def listStyle (b : Block) : ListStyle :=
  if hasParam b "bullet" then ListStyle.Bullet
  else if hasParam b "line" then ListStyle.Line
  else ListStyle.Bullet

mutual

/-- `render_nodes_markdown`. -/
def renderNodesMarkdownGo : List Node → Nat → String
  | [], _ => ""
  | n :: rest, partLevel => renderNodeMarkdown n partLevel ++ renderNodesMarkdownGo rest partLevel

/-- One node of the Markdown walk: `Text` via `render_text_markdown`, blocks
via the `render_block_markdown` match on the block name. -/
def renderNodeMarkdown : Node → Nat → String
  | Node.text t, _ => renderTextMarkdown t
  | Node.block name args params attrs nodes span, partLevel =>
    match name with
    | "part" =>
      let level := Nat.min (partLevel + 1) 6
      let title := if args = [] then "part" else String.intercalate " " args
      String.mk (List.replicate level '#') ++ " " ++ title ++ "\n\n" ++
        renderNodesMarkdownGo nodes (partLevel + 1)
    | "list" =>
      let b : Block := ⟨name, args, params, attrs, nodes, span⟩
      renderListMarkdownGo nodes (listStyle b) ++
        (if listHadText nodes then "\n" else "")
    | "code" =>
      let lang := (((params.find? (fun p => p.key == "lang")).map Attribute.value).getD "")
      "```" ++ (if lang = "" then "" else lang) ++ "\n" ++
        renderTextOnlyMarkdown nodes ++ "```\n\n"
    | _ => renderNodesMarkdownGo nodes partLevel

/-- The per-node loop of `render_list_markdown`: direct `Text` children's
non-comment lines become items; nested blocks recurse as ordinary blocks at
part depth 0. -/
def renderListMarkdownGo : List Node → ListStyle → String
  | [], _ => ""
  | Node.text t :: rest, style =>
    (t.lines.foldl
      (fun acc line =>
        if line.is_comment then acc
        else
          match style with
          | ListStyle.Bullet => acc ++ "- " ++ line.value ++ "\n"
          | ListStyle.Line => acc ++ line.value ++ "\n") "") ++
      renderListMarkdownGo rest style
  | n :: rest, style => renderNodeMarkdown n 0 ++ renderListMarkdownGo rest style

end

/-- `render_block_markdown` on the `Block` record. -/
def renderBlockMarkdown (b : Block) (partLevel : Nat) : String :=
  renderNodeMarkdown (Node.block b.name b.args b.params b.attrs b.nodes b.span) partLevel

/-- `render_nodes_markdown` on a node list. -/
def renderNodesMarkdown (nodes : List Node) (partLevel : Nat) : String :=
  renderNodesMarkdownGo nodes partLevel

/-- `trim_trailing_newlines`. -/
def trimTrailingNewlines (s : String) : String :=
  String.mk ((s.data.reverse.dropWhile (fun c => c = '\n')).reverse)

/-- `render_markdown`. -/
def renderMarkdown (doc : Document) : String :=
  trimTrailingNewlines (renderNodesMarkdownGo doc.nodes 0)

/-! ## Result inspectors (for stating claims about concrete parses) -/

/-- Whether a node is a `Block`. -/
def Node.isBlock : Node → Bool
  | Node.block _ _ _ _ _ _ => true
  | Node.text _ => false

/-- All text-line values in a subtree (fuelled by depth). -/
def nodeTextValues : Nat → Node → List String
  | _, Node.text t => t.lines.map TextLine.value
  | 0, Node.block _ _ _ _ _ _ => []
  | fuel + 1, Node.block _ _ _ _ ns _ => (ns.map (nodeTextValues fuel)).flatten

/-- All block names in a subtree (fuelled by depth). -/
def nodeBlockNames : Nat → Node → List String
  | _, Node.text _ => []
  | 0, Node.block n _ _ _ _ _ => [n]
  | fuel + 1, Node.block n _ _ _ ns _ => n :: (ns.map (nodeBlockNames fuel)).flatten

/-- The document nodes of a parse outcome (empty on panic or fuel exhaustion). -/
def resultNodes : PRes ParseResult → List Node
  | .ok r => r.document.nodes
  | _ => []

/-- The diagnostics of a parse outcome. -/
def resultDiags : PRes ParseResult → List Diagnostic
  | .ok r => r.diagnostics
  | _ => []

/-- All text-line values of a parse outcome. -/
def resultTextValues (fuel : Nat) (res : PRes ParseResult) : List String :=
  ((resultNodes res).map (nodeTextValues fuel)).flatten

/-- All block names of a parse outcome. -/
def resultBlockNames (fuel : Nat) (res : PRes ParseResult) : List String :=
  ((resultNodes res).map (nodeBlockNames fuel)).flatten

/-! # Shared helper lemmas -/

theorem utf8Len_pos (c : Char) : 1 ≤ utf8Len c := by
  unfold utf8Len
  split_ifs <;> omega

theorem utf8LenList_nil : utf8LenList [] = 0 := rfl

theorem utf8LenList_cons (c : Char) (s : List Char) :
    utf8LenList (c :: s) = utf8Len c + utf8LenList s := by
  simp [utf8LenList]

theorem utf16LenList_cons (c : Char) (s : List Char) :
    utf16LenList (c :: s) = utf16Len c + utf16LenList s := by
  simp [utf16LenList]

theorem utf8LenList_append (a b : List Char) :
    utf8LenList (a ++ b) = utf8LenList a + utf8LenList b := by
  simp [utf8LenList]

/-- The byte-offset walk lands exactly on the boundary after a prefix and
reports its three encodings. -/
theorem pfloGo_prefix (li : Nat) (pre suf : List Char) (a8 a16 a32 : Nat) :
    positionForLineOffsetGo li (pre ++ suf) (utf8LenList pre) a8 a16 a32 =
      .ok ⟨li, a8 + utf8LenList pre, a16 + utf16LenList pre, a32 + pre.length⟩ := by
  induction pre generalizing a8 a16 a32 with
  | nil =>
    simp [positionForLineOffsetGo, utf8LenList, utf16LenList]
  | cons c rest ih =>
    have h1 : 1 ≤ utf8Len c := utf8Len_pos c
    have hcons : utf8LenList (c :: rest) = utf8Len c + utf8LenList rest := utf8LenList_cons c rest
    obtain ⟨t, ht⟩ : ∃ t, utf8LenList (c :: rest) = t + 1 :=
      ⟨utf8LenList (c :: rest) - 1, by omega⟩
    rw [ht, List.cons_append]
    rw [positionForLineOffsetGo]
    rw [if_pos (by omega)]
    have h2 : t + 1 - utf8Len c = utf8LenList rest := by omega
    rw [h2, ih]
    have h3 : a8 + utf8Len c + utf8LenList rest = a8 + (t + 1) := by omega
    simp [utf16LenList_cons, h3, Nat.add_assoc, Nat.add_comm, Nat.add_left_comm]

/-- `position_for_line_offset` at the byte offset of a line prefix. -/
theorem positionForLineOffset_prefix (li : Nat) (pre suf : List Char) :
    positionForLineOffset li (pre ++ suf) (utf8LenList pre) =
      .ok ⟨li, utf8LenList pre, utf16LenList pre, pre.length⟩ := by
  have h := pfloGo_prefix li pre suf 0 0 0
  simpa [positionForLineOffset] using h

theorem dropWhile_all_append (p : Char → Bool) (w l : List Char)
    (hw : ∀ c ∈ w, p c = true) :
    List.dropWhile p (w ++ l) = List.dropWhile p l := by
  induction w with
  | nil => rfl
  | cons c rest ih =>
    have hc : p c = true := hw c (List.mem_cons_self _ _)
    simp only [List.cons_append, List.dropWhile_cons, hc, if_true]
    exact ih (fun x hx => hw x (List.mem_cons_of_mem _ hx))

theorem splitOnce_first (k v : List Char) (sep : Char) (hk : sep ∉ k) :
    splitOnce (k ++ sep :: v) sep = some (k, v) := by
  induction k with
  | nil => simp [splitOnce]
  | cons c rest ih =>
    have hc : ¬ c = sep := fun h => hk (by simp [h])
    have ih2 := ih (fun h => hk (List.mem_cons_of_mem _ h))
    rw [List.cons_append]
    rw [splitOnce]
    rw [if_neg hc, ih2]

theorem isPrefixOf_single (a : Char) (l : List Char) :
    List.isPrefixOf [a] l = true ↔ l.head? = some a := by
  cases l with
  | nil => simp [List.isPrefixOf]
  | cons b t =>
    show (a == b && List.isPrefixOf [] t) = true ↔ some b = some a
    rw [show List.isPrefixOf ([] : List Char) t = true by cases t <;> rfl]
    rw [Bool.and_true, beq_iff_eq]
    exact ⟨fun h => by rw [h], fun h => (Option.some_inj.mp h).symm⟩

/-- `unescape_text` keeps a leading `'!'` (no escape pair starts with it). -/
theorem unescapeText_bang (rest : List Char) :
    unescapeText ('!' :: rest) = '!' :: unescapeText rest := by
  cases rest with
  | nil => rfl
  | cons b t => simp [unescapeText]

@[simp] theorem PRes.bind_ok {α β : Type} (a : α) (f : α → PRes β) :
    PRes.bind (.ok a) f = f a := rfl

@[simp] theorem PRes.bind_panicked {α β : Type} (f : α → PRes β) :
    PRes.bind .panicked f = .panicked := rfl

@[simp] theorem PRes.bind_fuelOut {α β : Type} (f : α → PRes β) :
    PRes.bind .fuelOut f = .fuelOut := rfl

@[simp] theorem PRes.bind_def {α β : Type} (x : PRes α) (f : α → PRes β) :
    x >>= f = PRes.bind x f := rfl

@[simp] theorem PRes.pure_def {α : Type} (a : α) : (pure a : PRes α) = .ok a := rfl

theorem PRes.bind_eq_ok {α β : Type} {x : PRes α} {f : α → PRes β} {b : β}
    (h : PRes.bind x f = .ok b) : ∃ a, x = .ok a ∧ f a = .ok b := by
  cases x with
  | ok a => exact ⟨a, rfl, h⟩
  | panicked => exact PRes.noConfusion h
  | fuelOut => exact PRes.noConfusion h

/-- The node loop reports `closed = false` only when it ran off the end of the
input: every `break` path returns `true`, so an unmatched closing delimiter
means the whole remaining input was consumed. -/
theorem parseNodesLoop_false_atEnd (input : List Char) (opts : ParseOptions) :
    ∀ (fuel : Nat) (st : ScanState) (closing : Option (List Char))
      (nodes : List Node) (textBuf : List LineBuf) (ns : List Node) (st' : ScanState),
      parseNodesLoop input opts fuel st closing nodes textBuf = .ok (ns, st', false) →
      atEnd input st' = true := by
  intro fuel
  induction fuel with
  | zero =>
    intro st closing nodes textBuf ns st' h
    simp [parseNodesLoop] at h
  | succ f ih =>
    intro st closing nodes textBuf ns st' h
    rw [parseNodesLoop] at h
    split at h
    · cases h
      assumption
    · dsimp only at h
      simp only [PRes.bind_def] at h
      repeat
        first
        | (simp only [PRes.ok.injEq, Prod.mk.injEq, Bool.true_eq_false, and_false,
            false_and] at h)
        | exact ih _ _ _ _ _ _ h
        | split at h
        | (obtain ⟨_, _, h⟩ := PRes.bind_eq_ok h)

theorem findSubAux_spec (pat : List Char) :
    ∀ (hay : List Char) (i k : Nat), findSubAux pat hay i = some k →
      i ≤ k ∧ pat.isPrefixOf (hay.drop (k - i)) = true := by
  intro hay
  induction hay with
  | nil =>
    intro i k h
    rw [findSubAux] at h
    split at h
    · cases h
      simp_all
    · exact Option.noConfusion h
  | cons c rest ih =>
    intro i k h
    rw [findSubAux] at h
    split at h
    · cases h
      simp_all
    · obtain ⟨h1, h2⟩ := ih (i + 1) k h
      refine ⟨by omega, ?_⟩
      have h3 : k - i = (k - (i + 1)) + 1 := by omega
      rw [h3]
      simpa [List.drop_succ_cons] using h2

theorem isPrefixOf_cons_head (a : Char) (as l : List Char)
    (h : List.isPrefixOf (a :: as) l = true) : l.head? = some a := by
  cases l with
  | nil => exact absurd h (by simp [List.isPrefixOf])
  | cons b t =>
    have h2 : (a == b && List.isPrefixOf as t) = true := h
    simp only [Bool.and_eq_true, beq_iff_eq] at h2
    rw [show b = a from h2.1.symm]
    rfl

theorem ws_utf8Len (w : List Char) (hw : ∀ c ∈ w, c = ' ' ∨ c = '\t') :
    utf8LenList w = w.length := by
  induction w with
  | nil => rfl
  | cons c rest ih =>
    have h1 : utf8Len c = 1 := by
      rcases hw c (List.mem_cons_self _ _) with h | h <;> rw [h] <;> decide
    rw [utf8LenList_cons, h1, ih (fun x hx => hw x (List.mem_cons_of_mem _ hx))]
    simp [Nat.add_comm]

theorem indentSkip_ws (opts : ParseOptions) (w x : List Char)
    (hw : ∀ c ∈ w, c = ' ' ∨ c = '\t') :
    ∃ i, indentSkip opts (w ++ '!' :: x) = (i, w.length) := by
  induction w with
  | nil => exact ⟨0, by simp [indentSkip]⟩
  | cons c rest ih =>
    obtain ⟨i, hi⟩ := ih (fun z hz => hw z (List.mem_cons_of_mem _ hz))
    rcases hw c (List.mem_cons_self _ _) with h | h <;> subst h
    · exact ⟨i + opts.space_width, by simp [indentSkip, hi]⟩
    · exact ⟨i + opts.tab_width, by simp [indentSkip, hi]⟩

theorem head?_take_ne (r : List Char) (m : Nat) (a : Char) (hr : r.head? ≠ some a) :
    (r.take m).head? ≠ some a := by
  cases m with
  | zero => simp
  | succ m =>
    cases r with
    | nil => simp
    | cons b t => simpa using hr

theorem isPrefixOf_bang_bang (r' : List Char) (hr : r'.head? ≠ some '!') :
    List.isPrefixOf ['!', '!'] ('!' :: r') = false := by
  show (('!' == '!') && List.isPrefixOf ['!'] r') = false
  rw [show ('!' == '!') = true from rfl, Bool.true_and]
  cases hcase : List.isPrefixOf ['!'] r' with
  | false => rfl
  | true => exact absurd ((isPrefixOf_single _ _).mp hcase) hr

theorem isCommentLine_ws_bang (w r : List Char) (hw : ∀ c ∈ w, c = ' ' ∨ c = '\t')
    (hr : r.head? ≠ some '!') : isCommentLine (w ++ '!' :: r) = true := by
  unfold isCommentLine trimStart
  rw [dropWhile_all_append _ _ _
    (fun c hc => by rcases hw c hc with h | h <;> rw [h] <;> decide)]
  rw [List.dropWhile_cons]
  rw [show rustIsWhitespace '!' = false from by decide]
  simp only [Bool.false_eq_true, if_false]
  rw [isPrefixOf_bang_bang r hr]
  simp [(isPrefixOf_single '!' ('!' :: r)).mpr rfl]

/-- `parse_text_segment` on a line-start segment `w ++ '!' :: r` cut at `j`
(past the whitespace run `w`): the produced buffer keeps the `'!'` and is not
a comment. -/
theorem parseTextSegment_ws_bang (opts : ParseOptions) (li : Nat) (w r : List Char) (j : Nat)
    (hw : ∀ c ∈ w, c = ' ' ∨ c = '\t') (hr : r.head? ≠ some '!')
    (hj : w.length < j) :
    ∃ (i : Nat) (sp : Span),
      parseTextSegment opts (w ++ '!' :: r) li 0 j =
        .ok (some ⟨i, '!' :: r.take (j - w.length - 1), sp, false⟩) := by
  have hseg_take : (w ++ '!' :: r).take j = w ++ '!' :: r.take (j - w.length - 1) := by
    rw [List.take_append_eq_append_take]
    rw [List.take_of_length_le (by omega)]
    obtain ⟨m, hm⟩ : ∃ m, j - w.length = m + 1 := ⟨j - w.length - 1, by omega⟩
    rw [hm, List.take_succ_cons]
    simp
  obtain ⟨i, hi⟩ := indentSkip_ws opts w (r.take (j - w.length - 1)) hw
  have hpp := isPrefixOf_bang_bang (r.take (j - w.length - 1))
    (head?_take_ne r _ '!' hr)
  have hpos1 : positionForLineOffset li (w ++ '!' :: r) w.length =
      .ok ⟨li, utf8LenList w, utf16LenList w, w.length⟩ := by
    conv_lhs => rw [show w.length = utf8LenList w from (ws_utf8Len w hw).symm]
    exact positionForLineOffset_prefix li w ('!' :: r)
  have hline2 : w ++ '!' :: r =
      (w ++ '!' :: r.take (j - w.length - 1)) ++ r.drop (j - w.length - 1) := by
    rw [List.append_assoc]
    simp [List.take_append_drop]
  have hpos2 : positionForLineOffset li (w ++ '!' :: r)
      (w.length + utf8LenList ('!' :: r.take (j - w.length - 1))) =
      .ok ⟨li, utf8LenList (w ++ '!' :: r.take (j - w.length - 1)),
        utf16LenList (w ++ '!' :: r.take (j - w.length - 1)),
        (w ++ '!' :: r.take (j - w.length - 1)).length⟩ := by
    conv_lhs => rw [hline2]
    rw [show w.length + utf8LenList ('!' :: r.take (j - w.length - 1)) =
      utf8LenList (w ++ '!' :: r.take (j - w.length - 1)) by
        rw [utf8LenList_append, ws_utf8Len w hw]]
    exact positionForLineOffset_prefix li _ _
  refine ⟨i, ⟨⟨li, utf8LenList w, utf16LenList w, w.length⟩,
    ⟨li, utf8LenList (w ++ '!' :: r.take (j - w.length - 1)),
      utf16LenList (w ++ '!' :: r.take (j - w.length - 1)),
      (w ++ '!' :: r.take (j - w.length - 1)).length⟩⟩, ?_⟩
  unfold parseTextSegment spanForLineOffsets
  rw [if_neg (show ¬ (j ≤ 0) by omega)]
  simp only [List.drop_zero, List.take_zero, utf8LenList_nil, hseg_take, if_true, decide_True,
    Bool.true_and, hi, List.drop_left, hpp, Bool.and_false, Bool.false_eq_true, if_false,
    Nat.zero_add, hpos1, hpos2, PRes.bind_def, PRes.bind_ok, PRes.pure_def,
    List.cons_ne_nil]

/-! # Claim theorems -/

/-- C3: the two-character escape pairs `@@`, `##` and a doubled opening brace
each collapse to their first character in one left-to-right pass of
`unescape_text`; text lines with exactly those source contents parse to
`TextLine`s with values `@`, `#`, `{`; and a line `!!foo` at column 0 parses
to a `TextLine` with value `!foo` and `is_comment = false`. -/
theorem c3_roundtrip_escaping :
    unescapeText ['@', '@'] = ['@'] ∧
    unescapeText ['#', '#'] = ['#'] ∧
    unescapeText ['\x7b', '\x7b'] = ['\x7b'] ∧
    parseDocument "$\n@@\n##\n\x7b\x7b\n$" = .ok ⟨⟨[], [Node.text ⟨[
      ⟨0, "@", ⟨⟨1, 0, 0, 0⟩, ⟨1, 2, 2, 2⟩⟩, false⟩,
      ⟨0, "#", ⟨⟨2, 0, 0, 0⟩, ⟨2, 2, 2, 2⟩⟩, false⟩,
      ⟨0, "\x7b", ⟨⟨3, 0, 0, 0⟩, ⟨3, 2, 2, 2⟩⟩, false⟩]⟩]⟩, []⟩ ∧
    parseDocument "!!foo" = .ok ⟨⟨[],
      [Node.text ⟨[⟨0, "!foo", ⟨⟨0, 0, 0, 0⟩, ⟨0, 4, 4, 4⟩⟩, false⟩]⟩]⟩, []⟩ :=
  ⟨rfl, rfl, rfl, rfl, rfl⟩

/-- C7 (code bug): on the input `!!é` the `!!` collapse makes the span end
byte offset `value_start + value.len()` land inside the final multi-byte
character, and `position_for_line_offset` slices the line at a non-boundary
byte index — a Rust panic, contradicting "never fails with a hard error".
The same input with an ASCII final character parses normally. -/
theorem c7_panic_on_nonboundary_slice :
    parseDocument "!!é" = .panicked ∧
    parseDocument "!!e" = .ok ⟨⟨[],
      [Node.text ⟨[⟨0, "!e", ⟨⟨0, 0, 0, 0⟩, ⟨0, 2, 2, 2⟩⟩, false⟩]⟩]⟩, []⟩ :=
  ⟨rfl, rfl⟩

/-- C4: the column of a `Position` advances in the three units together —
one consumed character adds its UTF-8 length, its UTF-16 length and one
scalar to the respective counters (each monotonically non-decreasing), a
newline resets all three to zero, every cursor advance funnels through
`advancePosition`, and the byte-offset walk of `position_for_line_offset`
reports exactly the three encodings of the consumed line prefix. -/
theorem c4_position_triple_invariant :
    (∀ (p : Position) (c : Char), c ≠ '\n' →
      advancePosition p c =
        ⟨p.line, p.col8 + utf8Len c, p.col16 + utf16Len c, p.col32 + 1⟩ ∧
      p.col8 ≤ (advancePosition p c).col8 ∧
      p.col16 ≤ (advancePosition p c).col16 ∧
      p.col32 ≤ (advancePosition p c).col32) ∧
    (∀ p : Position, advancePosition p '\n' = ⟨p.line + 1, 0, 0, 0⟩) ∧
    (∀ (st : ScanState) (c : Char), (advanceCharStep c st).pos = advancePosition st.pos c) ∧
    (∀ (li : Nat) (pre suf : List Char),
      positionForLineOffset li (pre ++ suf) (utf8LenList pre) =
        .ok ⟨li, utf8LenList pre, utf16LenList pre, pre.length⟩) := by
  refine ⟨?_, ?_, ?_, ?_⟩
  · intro p c hc
    refine ⟨by simp [advancePosition, hc], ?_, ?_, ?_⟩ <;>
      simp [advancePosition, hc]
  · intro p
    simp [advancePosition]
  · intro st c
    rfl
  · intro li pre suf
    exact positionForLineOffset_prefix li pre suf

/-- Witness for C4 at a concrete position and character. -/
theorem c4_witness :
    advancePosition ⟨2, 3, 4, 5⟩ 'é' = ⟨2, 3 + utf8Len 'é', 4 + utf16Len 'é', 5 + 1⟩ :=
  (c4_position_triple_invariant.1 ⟨2, 3, 4, 5⟩ 'é' (by decide)).1

/-- C5: a block header whose `@` is followed by no identifier character
(`is_ascii_alphanumeric`, `_`, `-`) parses to `none` in `parse_header_parts`,
so the document `@ \x7b x \x7d` yields the Error "missing block name", no
block node, and the content immediately after the matched opening brace
re-parsed as ordinary text. -/
theorem c5_missing_block_name :
    parseHeaderParts ['@'] = none ∧
    (∀ (c : Char) (rest : List Char), isIdentChar c = false →
      parseHeaderParts ('@' :: c :: rest) = none) ∧
    parseDocument "@ \x7b x \x7d" = .ok ⟨⟨[],
      [Node.text ⟨[⟨0, " x \x7d", ⟨⟨0, 3, 3, 3⟩, ⟨0, 7, 7, 7⟩⟩, false⟩]⟩]⟩,
      [⟨⟨⟨0, 0, 0, 0⟩, ⟨0, 3, 3, 3⟩⟩, Severity.Error, "missing block name"⟩]⟩ := by
  refine ⟨rfl, ?_, rfl⟩
  intro c rest hc
  simp [parseHeaderParts, List.takeWhile_cons, hc]

/-- Witness for C5 at a concrete header. -/
theorem c5_witness :
    isIdentChar ' ' = false ∧ parseHeaderParts ['@', ' ', 'x'] = none :=
  ⟨by decide, c5_missing_block_name.2.1 ' ' ['x'] (by decide)⟩

/-- C10: `parse_attribute_line` trims the whole line first, so any run of
whitespace before the single `#` is ignored and such a line is accepted as an
attribute; at the document level an indented `#key:value` line therefore
continues the leading-attribute run. -/
theorem c10_attribute_leading_whitespace :
    (∀ (w k v : List Char) (st : ScanState),
      (∀ c ∈ w, rustIsWhitespace c = true) →
      (k ++ ':' :: v).head? ≠ some '#' →
      ':' ∉ k →
      trim k ≠ [] →
      ∃ sp : Span,
        parseAttributeLine (w ++ '#' :: (k ++ ':' :: v)) st =
          .ok (some ⟨String.mk (trim k), String.mk (trim v), sp⟩, st)) ∧
    parseDocument "#a:1\n  #b: 2\nx" = .ok ⟨⟨[
      ⟨"a", "1", ⟨⟨0, 0, 0, 0⟩, ⟨0, 4, 4, 4⟩⟩⟩,
      ⟨"b", "2", ⟨⟨1, 0, 0, 0⟩, ⟨1, 7, 7, 7⟩⟩⟩],
      [Node.text ⟨[⟨0, "x", ⟨⟨2, 0, 0, 0⟩, ⟨2, 1, 1, 1⟩⟩, false⟩]⟩]⟩, []⟩ := by
  refine ⟨?_, rfl⟩
  intro w k v st hw h2 h3 h4
  have htrim : trimStart (w ++ '#' :: (k ++ ':' :: v)) = '#' :: (k ++ ':' :: v) := by
    unfold trimStart
    rw [dropWhile_all_append _ _ _ hw]
    rw [List.dropWhile_cons]
    rw [show rustIsWhitespace '#' = false from by decide]
    simp
  have hp1 : List.isPrefixOf ['#'] ('#' :: (k ++ ':' :: v)) = true :=
    (isPrefixOf_single _ _).mpr rfl
  have hp2 : List.isPrefixOf ['#', '#'] ('#' :: (k ++ ':' :: v)) = false := by
    show (('#' == '#') && List.isPrefixOf ['#'] (k ++ ':' :: v)) = false
    rw [show ('#' == '#') = true from rfl, Bool.true_and]
    cases hcase : List.isPrefixOf ['#'] (k ++ ':' :: v) with
    | false => rfl
    | true => exact absurd ((isPrefixOf_single _ _).mp hcase) h2
  refine ⟨⟨⟨st.pos.line, 0, 0, 0⟩,
    ⟨st.pos.line, utf8LenList (w ++ '#' :: (k ++ ':' :: v)),
      utf16LenList (w ++ '#' :: (k ++ ':' :: v)),
      (w ++ '#' :: (k ++ ':' :: v)).length⟩⟩, ?_⟩
  have hpflo := positionForLineOffset_prefix st.pos.line (w ++ '#' :: (k ++ ':' :: v)) []
  rw [List.append_nil] at hpflo
  unfold parseAttributeLine lineSpanFromLine
  rw [htrim]
  simp only [hp1, hp2, Bool.not_true, Bool.false_or, Bool.false_eq_true, if_false,
    List.drop_succ_cons, List.drop_zero, splitOnce_first _ _ _ h3, if_neg h4,
    hpflo, PRes.bind_def, PRes.bind_ok, PRes.pure_def]

/-- C1 counterexample: on `@a \x7b @b \x7b x \x7d \x7d` the closing-delimiter
substring search closes block `a` at the first closing brace of the same line
before any nested header could be recognised (headers are recognised only at
line starts), so the document has two top-level nodes, no block named `b`
exists anywhere in the tree, and block `a`'s child is a text node; the
diagnostics list is empty as claimed. -/
theorem c1_counterexample :
    resultBlockNames 10 (parseDocument "@a \x7b @b \x7b x \x7d \x7d") = ["a"] ∧
    (resultNodes (parseDocument "@a \x7b @b \x7b x \x7d \x7d")).length = 2 ∧
    resultDiags (parseDocument "@a \x7b @b \x7b x \x7d \x7d") = [] :=
  ⟨rfl, rfl, rfl⟩

/-- C1 amended: `@a \x7b @b \x7b x \x7d \x7d` parses to a Block `a` whose
single child is a Text node with the one line ` @b \x7b x ` (the body up to
the first closing brace, kept verbatim), followed by a sibling Text node
` \x7d`, with zero diagnostics. -/
theorem c1_amended :
    parseDocument "@a \x7b @b \x7b x \x7d \x7d" = .ok ⟨⟨[], [
      Node.block "a" [] [] []
        [Node.text ⟨[⟨0, " @b \x7b x ", ⟨⟨0, 4, 4, 4⟩, ⟨0, 12, 12, 12⟩⟩, false⟩]⟩]
        ⟨⟨0, 0, 0, 0⟩, ⟨0, 4, 4, 4⟩⟩,
      Node.text ⟨[⟨0, " \x7d", ⟨⟨0, 13, 13, 13⟩, ⟨0, 15, 15, 15⟩⟩, false⟩]⟩]⟩, []⟩ :=
  rfl

/-- C2 counterexample: on `@code+ \x7b a \x7d b \x7d c \x7d+ \x7d` the block
body is the mid-line segment up to the first `\x7d+`, which keeps its
surrounding spaces, so the text content is ` a \x7d b \x7d c ` and the exact
value `a \x7d b \x7d c` appears nowhere; diagnostics are empty as claimed. -/
theorem c2_counterexample :
    resultTextValues 10 (parseDocument "@code+ \x7b a \x7d b \x7d c \x7d+ \x7d") =
      [" a \x7d b \x7d c ", " \x7d"] ∧
    (resultTextValues 10 (parseDocument "@code+ \x7b a \x7d b \x7d c \x7d+ \x7d")).contains
      "a \x7d b \x7d c" = false ∧
    resultDiags (parseDocument "@code+ \x7b a \x7d b \x7d c \x7d+ \x7d") = [] :=
  ⟨rfl, rfl, rfl⟩

/-- C2 amended: the `code` block (whose header yields `plus_count = 1`, hence
the closing delimiter `\x7d+`) closes at the first `\x7d+` substring; its text
content is ` a \x7d b \x7d c ` (the mid-line segment keeps its surrounding
spaces), everything after the matched `\x7d+` (the trailing ` \x7d`) parses as
sibling text, and the diagnostics list is empty. -/
theorem c2_amended :
    parseHeaderParts ('@' :: ['c', 'o', 'd', 'e', '+', ' ']) =
      some ("code", [], [], 1, false) ∧
    parseDocument "@code+ \x7b a \x7d b \x7d c \x7d+ \x7d" = .ok ⟨⟨[], [
      Node.block "code" [] [] []
        [Node.text ⟨[⟨0, " a \x7d b \x7d c ", ⟨⟨0, 8, 8, 8⟩, ⟨0, 19, 19, 19⟩⟩, false⟩]⟩]
        ⟨⟨0, 0, 0, 0⟩, ⟨0, 8, 8, 8⟩⟩,
      Node.text ⟨[⟨0, " \x7d", ⟨⟨0, 21, 21, 21⟩, ⟨0, 23, 23, 23⟩⟩, false⟩]⟩]⟩, []⟩ :=
  ⟨rfl, rfl⟩

/-- C6 counterexample: on `@a \x7b text` the only text line in the tree has
value ` text` — the mid-line segment keeps the space after the opening brace,
so no Text node with value `text` exists — while the single Error diagnostic
`missing closing delimiter` is produced as claimed. -/
theorem c6_counterexample :
    resultTextValues 10 (parseDocument "@a \x7b text") = [" text"] ∧
    (" text" : String) ≠ "text" ∧
    resultDiags (parseDocument "@a \x7b text") =
      [⟨⟨⟨0, 0, 0, 0⟩, ⟨0, 0, 0, 0⟩⟩, Severity.Error, "missing closing delimiter"⟩] :=
  ⟨rfl, by decide, rfl⟩

/-- C6 amended: `@a \x7b text` parses to a Block `a` containing a Text node
whose single line has value ` text` (the mid-line segment keeps the space
after the opening brace), together with exactly one Error diagnostic
`missing closing delimiter` anchored at the last consumed line; and in
general a block-body loop that never matched its closing delimiter
(`closed = false`) has consumed input to the very end, whereupon the parser
appends exactly that Error while still returning the partially parsed
children. -/
theorem c6_amended :
    parseDocument "@a \x7b text" = .ok ⟨⟨[],
      [Node.block "a" [] [] []
        [Node.text ⟨[⟨0, " text", ⟨⟨0, 4, 4, 4⟩, ⟨0, 9, 9, 9⟩⟩, false⟩]⟩]
        ⟨⟨0, 0, 0, 0⟩, ⟨0, 4, 4, 4⟩⟩]⟩,
      [⟨⟨⟨0, 0, 0, 0⟩, ⟨0, 0, 0, 0⟩⟩, Severity.Error, "missing closing delimiter"⟩]⟩ ∧
    (∀ (input : List Char) (opts : ParseOptions) (fuel : Nat) (st : ScanState)
       (close : List Char) (nodes : List Node) (textBuf : List LineBuf)
       (ns : List Node) (st' : ScanState),
      parseNodesLoop input opts fuel st (some close) nodes textBuf = .ok (ns, st', false) →
      atEnd input st' = true) :=
  ⟨rfl, fun input opts fuel st close nodes textBuf ns st' h =>
    parseNodesLoop_false_atEnd input opts fuel st (some close) nodes textBuf ns st' h⟩

/-- Witness for C6 at a concrete unterminated body: the loop on input `x`
with closing delimiter `\x7d` returns its partial text child with
`closed = false`, and the final state is at end of input. -/
theorem c6_witness :
    parseNodesLoop ['x'] defaultOptions 2 ⟨0, 0, ⟨0, 0, 0, 0⟩, []⟩ (some ['\x7d']) [] [] =
      .ok ([Node.text ⟨[⟨0, "x", ⟨⟨0, 0, 0, 0⟩, ⟨0, 1, 1, 1⟩⟩, false⟩]⟩],
        ⟨1, 0, ⟨0, 1, 1, 1⟩, []⟩, false) ∧
    atEnd ['x'] ⟨1, 0, ⟨0, 1, 1, 1⟩, []⟩ = true :=
  ⟨rfl, c6_amended.2 ['x'] defaultOptions 2 ⟨0, 0, ⟨0, 0, 0, 0⟩, []⟩ ['\x7d'] [] [] _ _ rfl⟩

/-- C8: a `part` block renders in Markdown as its heading level — the part
depth plus one, capped at 6 — in `#` characters, a space, the title (the args
joined with single spaces, or the literal word `part` when there are none),
then a blank line, and its children render at depth incremented by one; any
block name other than `part`, `list` and `code` renders its children at the
same depth; and inside a `list` a nested block renders at part depth 0, so no
block but `part` ever increments the depth. -/
theorem c8_part_markdown :
    (∀ (b : Block) (d : Nat), b.name = "part" →
      renderBlockMarkdown b d =
        String.mk (List.replicate (Nat.min (d + 1) 6) '#') ++ " " ++
          (if b.args = [] then "part" else String.intercalate " " b.args) ++ "\n\n" ++
          renderNodesMarkdown b.nodes (d + 1)) ∧
    (∀ (b : Block) (d : Nat), b.name ≠ "part" → b.name ≠ "list" → b.name ≠ "code" →
      renderBlockMarkdown b d = renderNodesMarkdown b.nodes d) ∧
    (∀ (n : Node) (rest : List Node) (style : ListStyle), n.isBlock = true →
      renderListMarkdownGo (n :: rest) style =
        renderNodeMarkdown n 0 ++ renderListMarkdownGo rest style) := by
  refine ⟨?_, ?_, ?_⟩
  · rintro ⟨name, args, params, attrs, nodes, span⟩ d hname
    cases hname
    rfl
  · rintro ⟨name, args, params, attrs, nodes, span⟩ d h1 h2 h3
    show renderNodeMarkdown (Node.block name args params attrs nodes span) d = _
    rw [renderNodeMarkdown]
    all_goals first | rfl | simp_all
  · intro n rest style hn
    cases n with
    | text t => simp [Node.isBlock] at hn
    | block name args params attrs nodes span => rfl

/-- Witness for C8 at a concrete `part` block of depth 7 (level caps at 6). -/
theorem c8_witness :
    renderBlockMarkdown ⟨"part", ["Hello", "World"], [], [], [], spanAtLineStart 0⟩ 7 =
      String.mk (List.replicate (Nat.min (7 + 1) 6) '#') ++ " " ++
        (if (["Hello", "World"] : List String) = [] then "part"
          else String.intercalate " " ["Hello", "World"]) ++ "\n\n" ++
        renderNodesMarkdown [] (7 + 1) :=
  c8_part_markdown.1 ⟨"part", ["Hello", "World"], [], [], [], spanAtLineStart 0⟩ 7 rfl

/-- C9: inside a block body the closing-delimiter search pre-empts comment
recognition — whenever the current line (a comment line: optional whitespace,
then `'!'` not doubled) contains the closing delimiter, the loop closes the
block at the delimiter on that line and flushes the content before it as a
non-comment `LineBuf` whose value keeps the `'!'` literally (also after the
unescaping flush); shown in general for one loop step and end-to-end on
`@a \x7b` + newline + `!x \x7d`. -/
theorem c9_close_preempts_comment :
    (∀ (input : List Char) (opts : ParseOptions) (fuel : Nat) (st : ScanState)
       (p : Nat) (nodes : List Node) (textBuf : List LineBuf) (w r : List Char) (k : Nat),
      isLineStart st = true →
      currentLineSlice input st = some (w ++ '!' :: r) →
      (∀ c ∈ w, c = ' ' ∨ c = '\t') →
      r.head? ≠ some '!' →
      findCloseInLine input st (blockCloseDelim p) = some k →
      isCommentLine (w ++ '!' :: r) = true ∧
      ∃ lb : LineBuf,
        lb.is_comment = false ∧
        lb.value.head? = some '!' ∧
        (toTextLine lb).is_comment = false ∧
        (toTextLine lb).value.data.head? = some '!' ∧
        parseNodesLoop input opts (fuel + 1) st (some (blockCloseDelim p)) nodes textBuf =
          .ok (flushText nodes (textBuf ++ [lb]),
            advanceToIdx input st (k + (blockCloseDelim p).length), true)) ∧
    parseDocument "@a \x7b\n!x \x7d" = .ok ⟨⟨[],
      [Node.block "a" [] [] []
        [Node.text ⟨[⟨0, "!x ", ⟨⟨1, 0, 0, 0⟩, ⟨1, 3, 3, 3⟩⟩, false⟩]⟩]
        ⟨⟨0, 0, 0, 0⟩, ⟨0, 4, 4, 4⟩⟩]⟩, []⟩ := by
  constructor
  · intro input opts fuel st p nodes textBuf w r k hls hslice hw hr hfind
    have hidx : st.idx = st.line_start_idx := by simpa [isLineStart] using hls
    have hslice' : (input.take (lineEndIdx input st)).drop st.line_start_idx = w ++ '!' :: r := by
      unfold currentLineSlice at hslice
      split at hslice
      · exact Option.noConfusion hslice
      · exact Option.some_inj.mp hslice
    have hfind2 : ∃ j, findSub ((input.take (lineEndIdx input st)).drop st.idx)
        (blockCloseDelim p) = some j ∧ k = st.idx + j := by
      simp only [findCloseInLine] at hfind
      split at hfind
      · exact Option.noConfusion hfind
      · cases hfs : findSub ((input.take (lineEndIdx input st)).drop st.idx)
            (blockCloseDelim p) with
        | none => rw [hfs] at hfind; exact Option.noConfusion hfind
        | some j => rw [hfs] at hfind; exact ⟨j, rfl, (Option.some_inj.mp hfind).symm⟩
    obtain ⟨j, hfs, hkj⟩ := hfind2
    rw [hidx, hslice'] at hfs
    obtain ⟨-, hpre⟩ := findSubAux_spec (blockCloseDelim p) (w ++ '!' :: r) 0 j hfs
    rw [Nat.sub_zero] at hpre
    have hhead : (w ++ '!' :: r)[j]? = some '\x7d' := by
      rw [← List.head?_drop]
      exact isPrefixOf_cons_head '\x7d' _ _ hpre
    have hj : w.length < j := by
      rcases Nat.lt_trichotomy j w.length with hlt | heq | hgt
      · exfalso
        rw [List.getElem?_append, if_pos hlt] at hhead
        obtain ⟨hlt2, heq2⟩ := List.getElem?_eq_some.mp hhead
        have hmem : '\x7d' ∈ w := by
          rw [← heq2]
          exact List.getElem_mem hlt2
        rcases hw _ hmem with h | h <;> exact absurd h (by decide)
      · exfalso
        subst heq
        rw [List.getElem?_append, if_neg (by omega)] at hhead
        simp at hhead
      · exact hgt
    have hlen1 : st.line_start_idx + 1 ≤ (input.take (lineEndIdx input st)).length := by
      have h1 : ((input.take (lineEndIdx input st)).drop st.line_start_idx).length =
          (w ++ '!' :: r).length := by rw [hslice']
      rw [List.length_drop, List.length_append, List.length_cons] at h1
      omega
    have hlen2 : (input.take (lineEndIdx input st)).length ≤ input.length := by
      simp [List.length_take]
    have hatEnd : atEnd input st = false := by
      simp only [atEnd, decide_eq_false_iff_not]
      omega
    have hkne : ¬ (k = st.idx) := by omega
    have hcom := isCommentLine_ws_bang w r hw hr
    obtain ⟨i, sp, hseg⟩ := parseTextSegment_ws_bang opts st.pos.line w r j hw hr hj
    refine ⟨hcom, ⟨i, '!' :: r.take (j - w.length - 1), sp, false⟩, rfl, rfl, rfl, ?_, ?_⟩
    · show (String.mk (unescapeText ('!' :: r.take (j - w.length - 1)))).data.head? = some '!'
      rw [unescapeText_bang]
      rfl
    · have hoff : currentLineOffset st = 0 := by simp [currentLineOffset, hidx]
      have hko : k - st.line_start_idx = j := by omega
      have hgd : (currentLineSlice input st).getD [] = w ++ '!' :: r := by rw [hslice]; rfl
      rw [parseNodesLoop, hatEnd]
      simp only [Bool.false_eq_true, if_false]
      rw [hfind]
      dsimp only
      rw [if_neg hkne]
      rw [hgd, hoff, hko, hseg]
      simp [pushOpt]
  · rfl

/-- Witness for C9: the step property applied inside the body of
`@a \x7b` + newline + `!x \x7d` at the comment-looking line `!x \x7d`. -/
theorem c9_witness :
    isCommentLine ([] ++ '!' :: ['x', ' ', '\x7d']) = true ∧
    ∃ lb : LineBuf,
      lb.is_comment = false ∧
      lb.value.head? = some '!' ∧
      (toTextLine lb).is_comment = false ∧
      (toTextLine lb).value.data.head? = some '!' ∧
      parseNodesLoop "@a \x7b\n!x \x7d".data defaultOptions (9 + 1)
          ⟨5, 5, ⟨1, 0, 0, 0⟩, []⟩ (some (blockCloseDelim 0)) [] [] =
        .ok (flushText [] ([] ++ [lb]),
          advanceToIdx "@a \x7b\n!x \x7d".data ⟨5, 5, ⟨1, 0, 0, 0⟩, []⟩
            (8 + (blockCloseDelim 0).length), true) :=
  c9_close_preempts_comment.1 "@a \x7b\n!x \x7d".data defaultOptions 9
    ⟨5, 5, ⟨1, 0, 0, 0⟩, []⟩ 0 [] [] [] ['x', ' ', '\x7d'] 8 (by decide) (by decide)
    (by decide) (by decide) (by decide)

/-- Witness for C10 at a concrete line; discharges the hypotheses at
`w = "  "`, `k = "a"`, `v = "1"`. -/
theorem c10_witness :
    ∃ sp : Span,
      parseAttributeLine ([' ', ' '] ++ '#' :: (['a'] ++ ':' :: ['1'])) ⟨0, 0, ⟨0, 0, 0, 0⟩, []⟩ =
        .ok (some ⟨String.mk (trim ['a']), String.mk (trim ['1']), sp⟩, ⟨0, 0, ⟨0, 0, 0, 0⟩, []⟩) :=
  c10_attribute_leading_whitespace.1 [' ', ' '] ['a'] ['1'] ⟨0, 0, ⟨0, 0, 0, 0⟩, []⟩
    (by decide) (by decide) (by decide) (by decide)

end LumosMark
